import Mathlib

/-!
Verification development for the newwork backend.

This file gives a shallow embedding, in Lean, of the core of the backend:
the streaming conversation engine (`app/services/streaming_handler.py`),
the tool execution service (`app/services/tool_execution_service.py`),
the conversation state (`app/services/conversation_service.py`),
the MCP connection layer (`app/services/mcp_connection_service.py`),
the Anthropic stream translation (`app/services/llm/anthropic_provider.py`),
and the sandboxed file tools (`app/tools/base.py`, `app/tools/file_tools.py`).

Python dictionaries are modelled as insertion-ordered association lists,
Python sets as duplicate-free lists with membership-preserving insertion,
Python strings as Lean `String` or `List Char` (for the substring algebra),
and JSON values as an explicit inductive type.  Effectful collaborators
(subprocesses, the network, the LLM providers, the tool implementations)
are modelled as explicit parameters: a provider stream becomes a list of
stream events ("script"), and the tool-execution call becomes a state
transformer supplied as a parameter.  Theorems about the embedded
definitions follow after all definitions.
-/

set_option maxRecDepth 4000

namespace NW

/-! ### JSON values (`Dict[str, Any]` payloads, tool arguments) -/

mutual

/-- A JSON value; `obj` is an insertion-ordered field list, as in Python. -/
inductive Json where
  | null
  | bool (b : Bool)
  | num (n : Int)
  | str (s : String)
  | arr (elems : JsonArr)
  | obj (fields : JsonObj)
deriving DecidableEq, Repr

/-- A JSON array, as an explicit list so equality is decidable. -/
inductive JsonArr where
  | nil
  | cons (hd : Json) (tl : JsonArr)
deriving DecidableEq, Repr

/-- The field list of a JSON object. -/
inductive JsonObj where
  | nil
  | cons (key : String) (val : Json) (tl : JsonObj)
deriving DecidableEq, Repr

end

/-- The empty JSON object `{}` (written in source as a literal). -/
def Json.emptyObj : Json := Json.obj JsonObj.nil

/-! ### LLM base types (`app/services/llm/base.py`) -/

/-- `MessageRole` from `llm/base.py`. -/
inductive Role where
  | system
  | user
  | assistant
  | tool
deriving DecidableEq, Repr

/-- `ToolUse`: a tool call made by the LLM (`llm/base.py`). -/
structure ToolUse where
  id : String
  name : String
  arguments : Json
deriving DecidableEq, Repr

/-- `ToolResult` from `llm/base.py` (the LLM-facing result record). -/
structure LLMToolResult where
  tool_use_id : String
  content : String
  is_error : Bool
deriving DecidableEq, Repr

/-- `StreamEvent` from `llm/base.py`, one constructor per `StreamEventType`,
each carrying the optional fields that type actually populates.  `usage`
dictionaries are modelled as `(input_tokens, output_tokens)` pairs, the two
keys `StreamingHandler` reads (absent keys default to `0` via `.get`). -/
inductive StreamEv where
  | text_delta (text : String)
  | tool_use_start (tool_use_id : String) (tool_name : String)
  | tool_use_delta (tool_use_id : Option String) (tool_input_delta : String)
  | tool_use_end (tool_use : Option ToolUse)
  | message_start
  | message_delta (usage : Option (Nat × Nat))
  | message_end (usage : Option (Nat × Nat))
  | stream_error (error : String)
deriving DecidableEq, Repr

/-! ### Tool execution service (`app/services/tool_execution_service.py`)

Only the permission-management state is embedded: `_pending_permissions`
(a dict keyed by the permission's own `id`), `_approved_tools` and
`_always_approved` (sets).  Timestamps, uuids and callbacks are external
input/output and are not part of the state the claims are about. -/

/-- `PendingPermission` (without the wall-clock and callback fields). -/
structure PendingPermission where
  id : String
  session_id : String
  tool_name : String
  arguments : Json
  description : String
deriving DecidableEq, Repr

/-- The mutable state of `ToolExecutionService`: `_pending_permissions`
as a list of permissions keyed by their `id` field (a Python dict cannot
hold two entries with one key, so erasure drops every entry with the key),
and the two approval sets as lists. -/
structure SvcState where
  pending : List PendingPermission
  approved_tools : List String
  always_approved : List String
deriving DecidableEq, Repr

/-- Python `set.add`: insert if not already a member. -/
def set_add (s : List String) (x : String) : List String :=
  if x ∈ s then s else s ++ [x]

/-- Dict lookup on the pending-permission map: first entry with the id. -/
def lookup_permission (l : List PendingPermission) (pid : String) :
    Option PendingPermission :=
  l.find? (fun p => decide (p.id = pid))

/-- `ToolExecutionService.get_pending_permissions`: the dict's values. -/
def get_pending_permissions (st : SvcState) : List PendingPermission :=
  st.pending

/-- `ToolExecutionService.respond_permission(permission_id, approved, always)`:
returns whether the permission was found, and the updated service state.
An absent id leaves the state untouched; a present id is popped from the
pending map in every case; on approval the tool name joins the
always-approved set (when `always`) or the session-approved set. -/
def respond_permission (st : SvcState) (pid : String)
    (approved : Bool) (always : Bool) : Bool × SvcState :=
  match lookup_permission st.pending pid with
  | none => (false, st)
  | some perm =>
    let st1 : SvcState := { st with pending := st.pending.filter (fun p => decide (p.id ≠ pid)) }
    if approved then
      if always then
        (true, { st1 with always_approved := set_add st1.always_approved perm.tool_name })
      else
        (true, { st1 with approved_tools := set_add st1.approved_tools perm.tool_name })
    else
      (true, st1)

/-! ### Conversation state (`app/services/conversation_service.py`) -/

/-- `ConversationMessage` (uuid, timestamps and free-form metadata are
external input and omitted; Python's `==` on the dataclass is structural
equality on the remaining fields). -/
structure Msg where
  role : Role
  content : String
  tool_uses : List ToolUse
  tool_results : List LLMToolResult
  tokens_used : Option Nat
deriving DecidableEq, Repr

/-- `Conversation` (session id, model, provider and timestamps omitted). -/
structure Conv where
  messages : List Msg
  total_input_tokens : Nat
  total_output_tokens : Nat
deriving DecidableEq, Repr

/-- `Conversation.add_user_message`. -/
def Conv.add_user_message (c : Conv) (content : String) : Conv :=
  { c with messages := c.messages ++ [⟨Role.user, content, [], [], none⟩] }

/-- `Conversation.add_assistant_message(content, tool_uses, tokens_used)`.
`tool_uses or []` maps `none` to the empty list; the output-token total is
bumped only when `tokens_used` is truthy (present and nonzero). -/
def Conv.add_assistant_message (c : Conv) (content : String)
    (tool_uses : Option (List ToolUse)) (tokens_used : Option Nat) : Conv :=
  let msg : Msg := ⟨Role.assistant, content, tool_uses.getD [], [], tokens_used⟩
  let c1 := { c with messages := c.messages ++ [msg] }
  match tokens_used with
  | some t => if t ≠ 0 then { c1 with total_output_tokens := c1.total_output_tokens + t } else c1
  | none => c1

/-- `Conversation.add_tool_results`: appends one user-role message holding
the results. -/
def Conv.add_tool_results (c : Conv) (rs : List LLMToolResult) : Conv :=
  { c with messages := c.messages ++ [⟨Role.user, "", [], rs, none⟩] }

/-- `Conversation.update_token_usage`. -/
def Conv.update_token_usage (c : Conv) (input_tokens output_tokens : Nat) : Conv :=
  { c with total_input_tokens := c.total_input_tokens + input_tokens,
           total_output_tokens := c.total_output_tokens + output_tokens }

/-- `Conversation.get_last_assistant_message`: scan the reversed list. -/
def Conv.get_last_assistant_message (c : Conv) : Option Msg :=
  c.messages.reverse.find? (fun m => decide (m.role = Role.assistant))

/-- Python `list.index`: the index of the first element equal to `m`. -/
def py_index (l : List Msg) (m : Msg) : Nat :=
  l.findIdx (fun x => decide (x = m))

/-- `Conversation.get_pending_tool_uses`: the last assistant message's tool
uses, unless it has none or some message after it carries tool results. -/
def Conv.get_pending_tool_uses (c : Conv) : List ToolUse :=
  match c.get_last_assistant_message with
  | none => []
  | some last_assistant =>
    if last_assistant.tool_uses.isEmpty then []
    else
      let assistant_idx := py_index c.messages last_assistant
      if (c.messages.drop (assistant_idx + 1)).any (fun m => !m.tool_results.isEmpty) then
        []
      else
        last_assistant.tool_uses

/-! ### Streaming orchestrator (`app/services/streaming_handler.py`)

`StreamingHandler` drives the provider stream and the tool service.  The
provider's `stream_complete` generator is modelled by a "script": the list
of stream events each provider round yields (an exhausted script yields an
empty round).  The call `self.tool_service.execute_tool`, an effectful
collaborator, is modelled as an explicit state transformer `exec` mapping
the service state and the round's tool uses to the new service state and
the result list. -/

/-- An outbound SSE event, one constructor per `SSEEventType` with the
`data` payload the handler actually builds for it.  The
`waiting_permission` status additionally carries `pending_count`. -/
inductive OutEvent where
  | message (role : Role) (content : String)
  | stream_chunk (content : String) (accumulated : String)
  | tool_call_started (tool_id : String) (tool_name : String)
  | tool_call_complete (tool_id : String) (tool_name : String) (arguments : Json)
  | tool_result_ev (tool_use_id : String) (content : String) (is_error : Bool)
  | status (s : String) (pending_count : Option Nat)
  | error_ev (msg : String)
  | complete (total_input_tokens : Nat) (total_output_tokens : Nat)
deriving DecidableEq, Repr

/-- Python slicing `s[:n]` used to truncate tool-result content for SSE. -/
def take_chars (s : String) (n : Nat) : String :=
  ⟨s.data.take n⟩

/-- How a `process_prompt` run ended: completed normally, suspended on a
pending permission, or terminated by a stream error. -/
inductive RunOutcome where
  | completed
  | suspended
  | errored
deriving DecidableEq, Repr

/-- Result of a `process_prompt` run: the emitted events, the final
conversation and service states, the outcome, and how many provider
stream rounds were consumed. -/
structure RunResult where
  events : List OutEvent
  conv : Conv
  svc : SvcState
  outcome : RunOutcome
  rounds : Nat
deriving DecidableEq, Repr

/-- The tool-execution collaborator: `_execute_tools` delegating to
`ToolExecutionService.execute_tool` over the round's tool uses. -/
def ExecFun : Type :=
  SvcState → List ToolUse → SvcState × List LLMToolResult

/-- One pass of `process_prompt`'s `async for event in ...` loop: folds the
round's stream events, accumulating text and tool uses, emitting chunk and
tool-call events, applying `MESSAGE_END` usage to the conversation, and
aborting the run on an `ERROR` event. -/
def run_stream_round : Conv → String → List ToolUse → List StreamEv →
    List OutEvent × Conv × String × List ToolUse × Bool
  | conv, acc, tus, [] => ([], conv, acc, tus, false)
  | conv, acc, tus, e :: rest =>
    match e with
    | .text_delta s =>
      if s = "" then run_stream_round conv acc tus rest
      else
        let r := run_stream_round conv (acc ++ s) tus rest
        (OutEvent.stream_chunk s (acc ++ s) :: r.1, r.2)
    | .tool_use_start tid tname =>
      let r := run_stream_round conv acc tus rest
      (OutEvent.tool_call_started tid tname :: r.1, r.2)
    | .tool_use_end (some tu) =>
      let r := run_stream_round conv acc (tus ++ [tu]) rest
      (OutEvent.tool_call_complete tu.id tu.name tu.arguments :: r.1, r.2)
    | .tool_use_end none => run_stream_round conv acc tus rest
    | .stream_error msg => ([OutEvent.error_ev msg], conv, acc, tus, true)
    | .message_end usage =>
      let conv' := match usage with
        | some (i, o) => conv.update_token_usage i o
        | none => conv
      run_stream_round conv' acc tus rest
    | .message_start => run_stream_round conv acc tus rest
    | .message_delta _ => run_stream_round conv acc tus rest
    | .tool_use_delta _ _ => run_stream_round conv acc tus rest

/-- `max_tool_iterations` default on `StreamingHandler`. -/
def max_tool_iterations : Nat := 10

/-- The `while iteration < self.max_tool_iterations` loop of
`process_prompt`, with the remaining iteration budget as fuel.  Each
iteration emits a "thinking" status, consumes one provider round, appends
the assistant message, and then either finishes (no tool uses), aborts
(stream error), suspends (a pending permission after executing tools), or
executes the tools and loops. -/
def process_loop (exec : ExecFun) :
    Nat → List (List StreamEv) → Conv → SvcState → String → RunResult
  | 0, _, conv, st, last_text =>
    ⟨[OutEvent.message Role.assistant last_text,
      OutEvent.complete conv.total_input_tokens conv.total_output_tokens],
     conv, st, RunOutcome.completed, 0⟩
  | fuel + 1, script, conv, st, _ =>
    let r := run_stream_round conv "" [] (script.headD [])
    let evs0 := OutEvent.status "thinking" none :: r.1
    let conv0 := r.2.1
    let text := r.2.2.1
    let tool_uses := r.2.2.2.1
    let aborted := r.2.2.2.2
    if aborted then ⟨evs0, conv0, st, RunOutcome.errored, 1⟩
    else
      let conv1 := conv0.add_assistant_message text
        (if tool_uses.isEmpty then none else some tool_uses) none
      if tool_uses.isEmpty then
        ⟨evs0 ++ [OutEvent.message Role.assistant text,
                  OutEvent.complete conv1.total_input_tokens conv1.total_output_tokens],
         conv1, st, RunOutcome.completed, 1⟩
      else
        let er := exec st tool_uses
        let st1 := er.1
        let results := er.2
        let evs1 := evs0 ++ [OutEvent.status "executing_tools" none]
        if (get_pending_permissions st1).isEmpty then
          let tr_events := results.map (fun res =>
            OutEvent.tool_result_ev res.tool_use_id (take_chars res.content 1000) res.is_error)
          let conv2 := conv1.add_tool_results results
          let rr := process_loop exec fuel script.tail conv2 st1 text
          ⟨evs1 ++ tr_events ++ rr.events, rr.conv, rr.svc, rr.outcome, 1 + rr.rounds⟩
        else
          ⟨evs1 ++ [OutEvent.status "waiting_permission"
                     (some (get_pending_permissions st1).length)],
           conv1, st1, RunOutcome.suspended, 1⟩

/-- `StreamingHandler.process_prompt(prompt)`: append the user message,
emit it, and run the iteration loop with the full iteration budget. -/
def process_prompt (exec : ExecFun) (script : List (List StreamEv))
    (conv : Conv) (st : SvcState) (prompt : String) : RunResult :=
  let conv0 := conv.add_user_message prompt
  let r := process_loop exec max_tool_iterations script conv0 st ""
  { r with events := OutEvent.message Role.user prompt :: r.events }

/-- One pass of `_continue_conversation`'s stream loop: it handles only
`TEXT_DELTA` and `TOOL_USE_END` (no tool-call events, no error handling,
no usage accounting). -/
def run_continuation_round : String → List ToolUse → List StreamEv →
    List OutEvent × String × List ToolUse
  | acc, tus, [] => ([], acc, tus)
  | acc, tus, e :: rest =>
    match e with
    | .text_delta s =>
      if s = "" then run_continuation_round acc tus rest
      else
        let r := run_continuation_round (acc ++ s) tus rest
        (OutEvent.stream_chunk s (acc ++ s) :: r.1, r.2)
    | .tool_use_end (some tu) => run_continuation_round acc (tus ++ [tu]) rest
    | _ => run_continuation_round acc tus rest

/-- Result of `_continue_conversation` / `continue_after_permission`. -/
structure ContResult where
  events : List OutEvent
  conv : Conv
  svc : SvcState
  rounds : Nat
deriving DecidableEq, Repr

/-- `StreamingHandler._continue_conversation`: stream one provider round,
append the assistant message, and either finish (no tool uses) or execute
the tools — with no permission check and no iteration guard — and recurse.
The recursion is driven by the remaining provider script; an exhausted
script yields empty provider rounds, which carry no tool uses. -/
def continue_conversation (exec : ExecFun) :
    List (List StreamEv) → Conv → SvcState → ContResult
  | [], conv, st =>
    let conv1 := conv.add_assistant_message "" none none
    ⟨[OutEvent.status "thinking" none, OutEvent.message Role.assistant "",
      OutEvent.complete conv1.total_input_tokens conv1.total_output_tokens],
     conv1, st, 1⟩
  | round :: rest, conv, st =>
    let r := run_continuation_round "" [] round
    let evs0 := OutEvent.status "thinking" none :: r.1
    let text := r.2.1
    let tool_uses := r.2.2
    let conv1 := conv.add_assistant_message text
      (if tool_uses.isEmpty then none else some tool_uses) none
    if tool_uses.isEmpty then
      ⟨evs0 ++ [OutEvent.message Role.assistant text,
                OutEvent.complete conv1.total_input_tokens conv1.total_output_tokens],
       conv1, st, 1⟩
    else
      let er := exec st tool_uses
      let conv2 := conv1.add_tool_results er.2
      let rr := continue_conversation exec rest conv2 er.1
      ⟨evs0 ++ rr.events, rr.conv, rr.svc, 1 + rr.rounds⟩

/-- `StreamingHandler.continue_after_permission(permission_id, approved,
always)`: first answer the permission via `respond_permission`; on denial,
scan the (already updated) pending list for the denied entry and emit its
error result before the "permission_denied" status; on approval,
re-execute the conversation's pending tool uses and fall into
`_continue_conversation`. -/
def continue_after_permission (exec : ExecFun) (script : List (List StreamEv))
    (conv : Conv) (st : SvcState) (pid : String)
    (approved : Bool) (always : Bool) : ContResult :=
  let st1 := (respond_permission st pid approved always).2
  if approved then
    let ptu := conv.get_pending_tool_uses
    if ptu.isEmpty then ⟨[], conv, st1, 0⟩
    else
      let er := exec st1 ptu
      let tr_events := er.2.map (fun res =>
        OutEvent.tool_result_ev res.tool_use_id (take_chars res.content 1000) res.is_error)
      let conv1 := conv.add_tool_results er.2
      let rr := continue_conversation exec script conv1 er.1
      ⟨tr_events ++ rr.events, rr.conv, rr.svc, rr.rounds⟩
  else
    match (get_pending_permissions st1).find? (fun p => decide (p.id = pid)) with
    | some p =>
      let conv1 := conv.add_tool_results [⟨p.id, "Permission denied by user", true⟩]
      ⟨[OutEvent.tool_result_ev p.id "Permission denied" true,
        OutEvent.status "permission_denied" none], conv1, st1, 0⟩
    | none =>
      ⟨[OutEvent.status "permission_denied" none], conv, st1, 0⟩

/-! ### Anthropic stream translation (`app/services/llm/anthropic_provider.py`)

`stream_complete` folds vendor SDK events into unified `StreamEv`s,
buffering partial tool-argument JSON per block.  The vendor event stream
is an external collaborator and is modelled as a list of `AnthEvent`s;
`json.loads` is modelled as an explicit `parse` parameter returning
`none` where the Python call would raise `JSONDecodeError`. -/

/-- The vendor SDK events `stream_complete` dispatches on, carrying the
fields each branch reads. -/
inductive AnthEvent where
  | message_start
  | content_block_start_tool (id : String) (name : String)
  | content_block_start_other
  | content_block_delta_text (text : String)
  | content_block_delta_json (partial_json : String)
  | content_block_stop
  | message_delta (output_tokens : Option Nat)
  | message_stop
deriving DecidableEq, Repr

/-- The accumulation state: `current_tool_id`, `current_tool_name`,
`current_tool_input`. -/
structure AnthState where
  current_tool_id : Option String
  current_tool_name : Option String
  current_tool_input : String
deriving DecidableEq, Repr

/-- Python truthiness of an `Optional[str]`: `None` and `""` are falsy. -/
def truthy_str (o : Option String) : Bool :=
  match o with
  | none => false
  | some s => !(s = "")

/-- One step of the `async for event in stream` dispatch in
`stream_complete`.  On `content_block_stop`, if a tool block is open the
accumulated input is parsed — with the empty-string and parse-failure
fallbacks to `{}` — and a `TOOL_USE_END` is emitted. -/
def anth_step (parse : String → Option Json) (st : AnthState) :
    AnthEvent → AnthState × List StreamEv
  | .message_start => (st, [StreamEv.message_start])
  | .content_block_start_tool bid bname =>
    (⟨some bid, some bname, ""⟩, [StreamEv.tool_use_start bid bname])
  | .content_block_start_other => (st, [])
  | .content_block_delta_text s => (st, [StreamEv.text_delta s])
  | .content_block_delta_json s =>
    ({ st with current_tool_input := st.current_tool_input ++ s },
     [StreamEv.tool_use_delta st.current_tool_id s])
  | .content_block_stop =>
    if truthy_str st.current_tool_id && truthy_str st.current_tool_name then
      let tool_args :=
        if st.current_tool_input = "" then Json.emptyObj
        else
          match parse st.current_tool_input with
          | some v => v
          | none => Json.emptyObj
      (⟨none, none, ""⟩,
       [StreamEv.tool_use_end (some
         ⟨st.current_tool_id.getD "", st.current_tool_name.getD "", tool_args⟩)])
    else
      (st, [])
  | .message_delta out_tokens =>
    (st, [StreamEv.message_delta (out_tokens.map (fun t => (0, t)))])
  | .message_stop => (st, [StreamEv.message_end none])

/-- Folding `anth_step` over the whole vendor stream. -/
def anth_run (parse : String → Option Json) :
    AnthState → List AnthEvent → AnthState × List StreamEv
  | st, [] => (st, [])
  | st, e :: rest =>
    let r := anth_step parse st e
    let rr := anth_run parse r.1 rest
    (rr.1, r.2 ++ rr.2)

/-- The initial accumulation state of `stream_complete`. -/
def anth_init : AnthState := ⟨none, none, ""⟩

/-! ### Workspace sandbox (`app/tools/base.py`)

Paths are modelled as lists of components of an absolute path;
`Path.resolve()` is the lexical normalization that folds away `.` and
`..` segments (the filesystem's symlink indirection is outside a shallow
embedding), and `Path.is_relative_to` is component-list containment. -/

/-- `Path.resolve()`: drop `.` segments and fold `..` into the parent
(at the root, `..` stays at the root, as in POSIX resolution). -/
def normalize_parts (parts : List String) : List String :=
  parts.foldl
    (fun acc c =>
      if c = "." then acc
      else if c = ".." then acc.dropLast
      else acc ++ [c])
    []

/-- The sandbox configuration of `ToolContext`: the workspace root and the
explicitly allow-listed roots, as absolute component lists. -/
structure ToolCtx where
  workspace_path : List String
  allowed_paths : List (List String)
deriving DecidableEq, Repr

/-- `ToolContext.is_path_allowed(path)`: resolve, then accept exactly when
the resolved path has the resolved workspace root, or some resolved
allow-listed root, as a component-list prefix. -/
def is_path_allowed (ctx : ToolCtx) (path : List String) : Bool :=
  let resolved := normalize_parts path
  (normalize_parts ctx.workspace_path).isPrefixOf resolved
    || ctx.allowed_paths.any (fun a => (normalize_parts a).isPrefixOf resolved)

/-- A path argument handed to a tool: either absolute, or relative to the
workspace root. -/
structure PathArg where
  absolute : Bool
  parts : List String
deriving DecidableEq, Repr

/-- Making the argument absolute: `workspace_path / path` when relative. -/
def expand_path (ctx : ToolCtx) (p : PathArg) : List String :=
  if p.absolute then p.parts else ctx.workspace_path ++ p.parts

/-- `ToolContext.resolve_path(path_str)`: make absolute, resolve, and
either return the resolved path or raise `ValueError` (modelled as
`Except.error`) when the sandbox check rejects it. -/
def resolve_path (ctx : ToolCtx) (p : PathArg) : Except String (List String) :=
  let path := expand_path ctx p
  let resolved := normalize_parts path
  if is_path_allowed ctx resolved then Except.ok resolved
  else Except.error "outside allowed boundaries"

/-- Rendering a component list as the POSIX path string (used only to
state that the sandbox check is not string-prefix matching). -/
def render_path (parts : List String) : String :=
  "/" ++ String.intercalate "/" parts

/-! ### `edit_file` string algebra (`app/tools/file_tools.py`)

The file content is an input (reading and writing the file is I/O); the
Python `str` operators `in`, `count` and `replace` are embedded on
`List Char` with CPython's semantics, including the empty-pattern cases. -/

/-- Scanning core of `str.count` for a pattern, non-overlapping, left to
right.  Each step consumes at least one character, so a fuel of `s.length`
suffices; the fuel keeps the recursion structural.  (For the empty pattern
this scan alone counts one occurrence per character; `py_count` adds the
final empty occurrence.) -/
def py_count_aux (pat : List Char) : Nat → List Char → Nat
  | _, [] => 0
  | 0, _ :: _ => 0
  | fuel + 1, c :: rest =>
    if pat.isPrefixOf (c :: rest) then
      1 + py_count_aux pat fuel (rest.drop (pat.length - 1))
    else
      py_count_aux pat fuel rest

/-- Python `content.count(old_string)`: non-overlapping occurrences; the
empty pattern occurs `len(s) + 1` times. -/
def py_count (s pat : List Char) : Nat :=
  if pat = [] then s.length + 1 else py_count_aux pat s.length s

/-- Scanning core of Python `in`: does a suffix of `s` start with `pat`. -/
def py_contains_aux (pat : List Char) : List Char → Bool
  | [] => pat.isEmpty
  | c :: rest => pat.isPrefixOf (c :: rest) || py_contains_aux pat rest

/-- Python `old_string in content`: substring containment (the empty
string is contained in everything). -/
def py_contains (s pat : List Char) : Bool :=
  py_contains_aux pat s

/-- Scanning core of `str.replace` replacing every non-overlapping
occurrence, left to right, with the same structural fuel as
`py_count_aux` (empty pattern handled in `py_replace`). -/
def py_replace_aux (pat new : List Char) : Nat → List Char → List Char
  | _, [] => []
  | 0, s => s
  | fuel + 1, c :: rest =>
    if pat.isPrefixOf (c :: rest) then
      new ++ py_replace_aux pat new fuel (rest.drop (pat.length - 1))
    else
      c :: py_replace_aux pat new fuel rest

/-- Python `content.replace(old, new)`: all occurrences; for the empty
pattern CPython inserts `new` at every position. -/
def py_replace (s pat new : List Char) : List Char :=
  if pat = [] then new ++ (s.map (fun c => c :: new)).flatten
  else py_replace_aux pat new s.length s

/-- Scanning core of `str.replace(old, new, 1)`: only the first
occurrence is replaced. -/
def py_replace1_aux (pat new : List Char) : List Char → List Char
  | [] => []
  | c :: rest =>
    if pat.isPrefixOf (c :: rest) then
      new ++ (c :: rest).drop pat.length
    else
      c :: py_replace1_aux pat new rest

/-- Python `content.replace(old, new, 1)`: for the empty pattern CPython
prepends `new`. -/
def py_replace1 (s pat new : List Char) : List Char :=
  if pat = [] then new ++ s else py_replace1_aux pat new s

/-- Outcome of the pure core of `EditFileTool.execute`: whether it
succeeded, the new file content when a write happens (`none` means the
file is left unchanged), the error message, and the reported
`replacements` metadata. -/
structure EditResult where
  success : Bool
  new_content : Option (List Char)
  error : Option String
  replacements : Option Nat
deriving DecidableEq, Repr

/-- `EditFileTool.execute` on the file's content: not-found error,
ambiguity error reporting the occurrence count when `replace_all` is
false, otherwise the replacement with its reported count. -/
def edit_file (content old_string new_string : List Char)
    (replace_all : Bool) : EditResult :=
  if !(py_contains content old_string) then
    ⟨false, none,
     some ("Text not found in file: '" ++ String.mk (old_string.take 50) ++ "...'"),
     none⟩
  else if !replace_all && py_count content old_string > 1 then
    ⟨false, none,
     some ("Text found " ++ toString (py_count content old_string) ++
           " times. Use replace_all=true or provide more context."),
     none⟩
  else if replace_all then
    ⟨true, some (py_replace content old_string new_string), none,
     some (py_count content old_string)⟩
  else
    ⟨true, some (py_replace1 content old_string new_string), none, some 1⟩

/-! ### MCP request multiplexing (`app/services/mcp_connection_service.py`)

Per connection: `_request_id` (the counter behind `_next_request_id`) and
the key set of `_pending_requests`, with a ghost trace of every id the
counter has issued.  The asynchronous interleaving is modelled by the
event alphabet: a request registration (`send_request` lines 300–304), a
response arrival (`_handle_message` popping the matching future, whether
it resolves or rejects), and a request timeout (`wait_for` expiring and
popping the entry).  The 30-second wall-clock bound itself is real time;
its cleanup effect is the `timeout` event. -/

/-- The id-correlation state of one `MCPConnection`, with the ghost field
`issued` recording each value `_next_request_id` has returned, in order. -/
structure ConnReqState where
  request_id : Nat
  pending : List Nat
  issued : List Nat
deriving DecidableEq, Repr

/-- The fresh connection: `_request_id = 0`, no pending requests. -/
def conn_req_init : ConnReqState := ⟨0, [], []⟩

/-- The events that touch the pending-request map. -/
inductive ReqEvent where
  | send
  | response (id : Nat)
  | timeout (id : Nat)
deriving DecidableEq, Repr

/-- One step: `send` runs `_next_request_id` (increment, return) and
registers the id; `response id` is `_handle_message` popping the id if
present (resolving or rejecting its future); `timeout id` is the
`asyncio.TimeoutError` handler popping the id. -/
def req_step (s : ConnReqState) : ReqEvent → ConnReqState
  | .send =>
    let rid := s.request_id + 1
    ⟨rid, s.pending ++ [rid], s.issued ++ [rid]⟩
  | .response i => { s with pending := s.pending.erase i }
  | .timeout i => { s with pending := s.pending.erase i }

/-- Running a trace of events from a given state. -/
def req_run_from (s : ConnReqState) (evs : List ReqEvent) : ConnReqState :=
  evs.foldl req_step s

/-- Running a trace of events on a fresh connection. -/
def req_run (evs : List ReqEvent) : ConnReqState :=
  req_run_from conn_req_init evs

/-- The request timeout passed to `asyncio.wait_for` (seconds). -/
def request_timeout_seconds : Nat := 30

/-! ### Connection manager registry (`MCPConnectionManager.connect`)

The registry `_connections` is a dict from server name to connection.
All the claim needs of a connection object is its observable record:
its name and its state.  `connection.connect()` touches the outside world
(subprocess or HTTP), so its success is a parameter; per the source it
leaves the object `connected` on success and `error` on failure, and
`disconnect()` moves an object to `disconnected`. -/

/-- `MCPConnectionState` from `app/models/mcp_protocol.py`. -/
inductive ConnectionState where
  | disconnected
  | connecting
  | connected
  | error
deriving DecidableEq, Repr

/-- The observable record of one `MCPConnection`. -/
structure ManagedConn where
  server_name : String
  state : ConnectionState
deriving DecidableEq, Repr

/-- Dict lookup in the registry. -/
def registry_lookup (reg : List (String × ManagedConn)) (name : String) :
    Option ManagedConn :=
  (reg.find? (fun kv => decide (kv.1 = name))).map (fun kv => kv.2)

/-- Dict assignment `d[k] = v`: replace in place, else append. -/
def registry_insert (reg : List (String × ManagedConn)) (name : String)
    (c : ManagedConn) : List (String × ManagedConn) :=
  if reg.any (fun kv => decide (kv.1 = name)) then
    reg.map (fun kv => if kv.1 = name then (kv.1, c) else kv)
  else
    reg ++ [(name, c)]

/-- `MCPConnectionManager.connect(server_name, config)`: disconnect any
existing connection under the name (the object mutates in place, so the
registry entry's state becomes `disconnected`), create the new connection
and call `connect()` on it; store it in the registry only when that call
succeeded; return the new connection object either way. -/
def manager_connect (reg : List (String × ManagedConn)) (name : String)
    (connect_succeeded : Bool) : List (String × ManagedConn) × ManagedConn :=
  let reg1 := reg.map (fun kv =>
    if kv.1 = name then (kv.1, { kv.2 with state := ConnectionState.disconnected })
    else kv)
  let connection : ManagedConn :=
    ⟨name, if connect_succeeded then ConnectionState.connected else ConnectionState.error⟩
  if connect_succeeded then (registry_insert reg1 name connection, connection)
  else (reg1, connection)

/-! ### Concrete sample inputs

Closed instances used to evaluate the embedded operations at concrete
inputs (witnesses and counterexamples of the theorems below). -/

/-- A sample pending permission for the gated `write_file` tool. -/
def perm_w : PendingPermission :=
  ⟨"p1", "sess", "write_file", Json.emptyObj, "write_file: a.txt"⟩

/-- A service state holding exactly the sample permission. -/
def svc_w : SvcState := ⟨[perm_w], [], []⟩

/-- The empty service state. -/
def svc_empty : SvcState := ⟨[], [], []⟩

/-- A sample tool use for the gated `write_file` tool. -/
def tu_w : ToolUse := ⟨"t1", "write_file", Json.emptyObj⟩

/-- A tool-execution collaborator whose run leaves a pending permission
(the gated tool was blocked and produced an error-flagged result carrying
the permission id, per `ToolExecutionService.execute_tool`). -/
def exec_blocked : ExecFun := fun st tus =>
  ({ st with pending := st.pending ++ [perm_w] },
   tus.map (fun tu =>
     ⟨tu.id, "Permission required for write_file. Request ID: p1", true⟩))

/-- A tool-execution collaborator that executes without any permission
requests and returns no results (all tools unknown/no-op). -/
def exec_noop : ExecFun := fun st _ => (st, [])

/-- A provider round that requests one tool call. -/
def round_tool : List StreamEv := [StreamEv.tool_use_end (some tu_w)]

/-- A conversation whose last assistant message has an unanswered tool
use. -/
def conv_pending_w : Conv := ⟨[⟨Role.assistant, "", [tu_w], [], none⟩], 0, 0⟩

/-- A sample JSON parser: accepts exactly the text `"ab"` as the object
holding one string field. -/
def parse_w : String → Option Json := fun s =>
  if s = "ab" then some (Json.obj (JsonObj.cons "k" (Json.str "v") JsonObj.nil))
  else none

/-- The resolution step function of `normalize_parts`. -/
def norm_step (acc : List String) (c : String) : List String :=
  if c = "." then acc else if c = ".." then acc.dropLast else acc ++ [c]

/-- The coupled invariant of the request-id state: the issued ids are
exactly `1, 2, …, request_id` in order, and the pending ids are distinct
issued ids bounded by the counter. -/
def ReqInv (s : ConnReqState) : Prop :=
  s.issued = (List.range s.request_id).map (· + 1) ∧
  s.pending.Nodup ∧
  ∀ i ∈ s.pending, 1 ≤ i ∧ i ≤ s.request_id ∧ i ∈ s.issued

/-! ## Theorems -/

/-! ### Substring-count lemmas (for `edit_file`) -/

/-- The empty pattern is contained in every string, as in Python. -/
theorem py_contains_nil_pat (s : List Char) : py_contains s [] = true := by
  cases s <;> simp [py_contains, py_contains_aux, List.isPrefixOf, List.isEmpty]

/-- A string with no occurrence of the pattern has scan count zero. -/
theorem py_count_aux_eq_zero (pat : List Char) :
    ∀ fuel s, py_contains_aux pat s = false → py_count_aux pat fuel s = 0 := by
  intro fuel
  induction fuel with
  | zero => intro s _; cases s <;> simp [py_count_aux]
  | succ n ih =>
    intro s h
    cases s with
    | nil => simp [py_count_aux]
    | cons c rest =>
      simp only [py_contains_aux, Bool.or_eq_false_iff] at h
      simp [py_count_aux, h.1, ih rest h.2]

/-- A positive occurrence count implies substring containment. -/
theorem py_contains_of_count (s pat : List Char) (h : py_count s pat ≠ 0) :
    py_contains s pat = true := by
  by_cases hp : pat = []
  · subst hp; exact py_contains_nil_pat s
  · rw [py_count, if_neg hp] at h
    by_contra hc
    rw [Bool.not_eq_true] at hc
    exact h (py_count_aux_eq_zero pat s.length s hc)

/-- C9: on a file whose content contains `old_string` exactly 3 times,
`edit_file` with `replace_all=false` fails with the error message
reporting the count 3 and performs no write (the content is unchanged,
`new_content = none`), while with `replace_all=true` it succeeds,
rewrites the content with all occurrences replaced, and reports
`replacements = 3`. -/
theorem edit_file_three_occurrences (content old_s new_s : List Char)
    (h : py_count content old_s = 3) :
    edit_file content old_s new_s false =
      ⟨false, none,
       some "Text found 3 times. Use replace_all=true or provide more context.",
       none⟩ ∧
    edit_file content old_s new_s true =
      ⟨true, some (py_replace content old_s new_s), none, some 3⟩ := by
  have hc : py_contains content old_s = true :=
    py_contains_of_count _ _ (by omega)
  have hmsg : "Text found " ++ toString (3 : Nat) ++
      " times. Use replace_all=true or provide more context." =
      "Text found 3 times. Use replace_all=true or provide more context." := rfl
  constructor
  · simp [edit_file, hc, h, hmsg]
  · simp [edit_file, hc, h]

/-- Witness for C9 at the concrete file content `"ababab"` and pattern
`"ab"`, which occurs exactly 3 times. -/
theorem edit_file_three_occurrences_witness :
    py_count "ababab".toList "ab".toList = 3 ∧
    edit_file "ababab".toList "ab".toList "X".toList false =
      ⟨false, none,
       some "Text found 3 times. Use replace_all=true or provide more context.",
       none⟩ ∧
    edit_file "ababab".toList "ab".toList "X".toList true =
      ⟨true, some "XXX".toList, none, some 3⟩ := by
  refine ⟨by decide, ?_, ?_⟩
  · exact (edit_file_three_occurrences "ababab".toList "ab".toList "X".toList (by decide)).1
  · rw [(edit_file_three_occurrences "ababab".toList "ab".toList "X".toList (by decide)).2]
    decide

/-! ### Permission response (claim C10) -/

/-- C10: `respond_permission` frame conditions — an absent id returns
`False` and leaves the whole service state unchanged; a present id is
popped from the pending map in every case, the always-approved set gains
the tool name exactly when `approved ∧ always`, the session-approved set
gains it exactly when `approved ∧ ¬always`, and a denial modifies neither
approval set. -/
theorem respond_permission_frame (st : SvcState) (pid : String)
    (approved always : Bool) :
    (lookup_permission st.pending pid = none →
      respond_permission st pid approved always = (false, st)) ∧
    (∀ perm, lookup_permission st.pending pid = some perm →
      (respond_permission st pid approved always).1 = true ∧
      (respond_permission st pid approved always).2.pending =
        st.pending.filter (fun p => decide (p.id ≠ pid)) ∧
      (approved = true → always = true →
        (respond_permission st pid approved always).2.always_approved =
          set_add st.always_approved perm.tool_name ∧
        (respond_permission st pid approved always).2.approved_tools =
          st.approved_tools) ∧
      (approved = true → always = false →
        (respond_permission st pid approved always).2.approved_tools =
          set_add st.approved_tools perm.tool_name ∧
        (respond_permission st pid approved always).2.always_approved =
          st.always_approved) ∧
      (approved = false →
        (respond_permission st pid approved always).2.approved_tools =
          st.approved_tools ∧
        (respond_permission st pid approved always).2.always_approved =
          st.always_approved)) := by
  constructor
  · intro h
    simp [respond_permission, h]
  · intro perm h
    cases approved <;> cases always <;> simp [respond_permission, h]

/-- Witness for C10: answering the sample pending permission approves the
tool for the session, and an unknown permission id changes nothing. -/
theorem respond_permission_frame_witness :
    (respond_permission svc_w "p1" true false).1 = true ∧
    (respond_permission svc_w "p1" true false).2.approved_tools =
      set_add svc_w.approved_tools perm_w.tool_name ∧
    respond_permission svc_w "zz" true false = (false, svc_w) := by
  refine ⟨?_, ?_, ?_⟩
  · exact ((respond_permission_frame svc_w "p1" true false).2 perm_w (by decide)).1
  · exact (((respond_permission_frame svc_w "p1" true false).2 perm_w
      (by decide)).2.2.2.1 rfl rfl).1
  · exact (respond_permission_frame svc_w "zz" true false).1 (by decide)

/-! ### Connection manager registry (claim C4) -/

/-- Replacing the value under a present key makes the lookup return it. -/
theorem registry_lookup_map_replace (reg : List (String × ManagedConn))
    (name : String) (c : ManagedConn)
    (h : reg.any (fun kv => decide (kv.1 = name)) = true) :
    registry_lookup
      (reg.map (fun kv => if kv.1 = name then (kv.1, c) else kv)) name =
      some c := by
  induction reg with
  | nil => simp at h
  | cons kv rest ih =>
    by_cases hk : kv.1 = name
    · simp [registry_lookup, hk]
    · have h' : rest.any (fun kv => decide (kv.1 = name)) = true := by
        simpa [hk] using h
      simpa [registry_lookup, hk] using ih h'

/-- Appending a binding for an absent key makes the lookup return it. -/
theorem registry_lookup_append_self (reg : List (String × ManagedConn))
    (name : String) (c : ManagedConn)
    (h : reg.any (fun kv => decide (kv.1 = name)) = false) :
    registry_lookup (reg ++ [(name, c)]) name = some c := by
  induction reg with
  | nil => simp [registry_lookup]
  | cons kv rest ih =>
    have hk : ¬ kv.1 = name := by
      intro he
      simp [he] at h
    have h' : rest.any (fun kv => decide (kv.1 = name)) = false := by
      simpa [hk] using h
    simpa [registry_lookup, hk] using ih h'

/-- Dict assignment then lookup of the same key yields the new value. -/
theorem registry_lookup_insert (reg : List (String × ManagedConn))
    (name : String) (c : ManagedConn) :
    registry_lookup (registry_insert reg name c) name = some c := by
  unfold registry_insert
  by_cases h : reg.any (fun kv => decide (kv.1 = name)) = true
  · rw [if_pos h]
    exact registry_lookup_map_replace reg name c h
  · rw [if_neg h]
    refine registry_lookup_append_self reg name c ?_
    cases hb : reg.any (fun kv => decide (kv.1 = name)) with
    | true => exact absurd hb h
    | false => rfl

/-- Mapping the disconnect update over the registry commutes with the
lookup. -/
theorem registry_lookup_map_state (reg : List (String × ManagedConn))
    (name : String) :
    registry_lookup
      (reg.map (fun kv =>
        if kv.1 = name then (kv.1, { kv.2 with state := ConnectionState.disconnected })
        else kv)) name =
      (registry_lookup reg name).map
        (fun c => { c with state := ConnectionState.disconnected }) := by
  induction reg with
  | nil => simp [registry_lookup]
  | cons kv rest ih =>
    by_cases hk : kv.1 = name
    · simp [registry_lookup, hk]
    · simpa [registry_lookup, hk] using ih

/-- C4 counterexample: connecting to a fresh name whose `connect()` fails
leaves the registry without any entry under the name, although the
returned Connection object records the `error` state. -/
theorem manager_connect_counterexample :
    (manager_connect [] "srv" false).2.state = ConnectionState.error ∧
    registry_lookup (manager_connect [] "srv" false).1 "srv" = none := by
  decide

/-- C4 amended: `connect(name, config)` always returns the newly created
Connection object (in `connected` state on success, `error` on failure),
but stores it in the registry only when `connect()` succeeded; on failure
the registry keeps at most the previous, now disconnected, entry. -/
theorem manager_connect_registry (reg : List (String × ManagedConn))
    (name : String) (succ : Bool) :
    (manager_connect reg name succ).2 =
      ⟨name, if succ then ConnectionState.connected else ConnectionState.error⟩ ∧
    (succ = true →
      registry_lookup (manager_connect reg name succ).1 name =
        some (manager_connect reg name succ).2) ∧
    (succ = false →
      registry_lookup (manager_connect reg name succ).1 name =
        (registry_lookup reg name).map
          (fun c => { c with state := ConnectionState.disconnected })) := by
  cases succ with
  | true =>
    refine ⟨rfl, ?_, ?_⟩
    · intro _
      simpa [manager_connect] using registry_lookup_insert _ name _
    · intro h
      exact absurd h (by simp)
  | false =>
    refine ⟨rfl, ?_, ?_⟩
    · intro h
      exact absurd h (by simp)
    · intro _
      simpa [manager_connect] using registry_lookup_map_state reg name

/-- Witness for C4 amended: a successful connect is stored; a failed
reconnect leaves only the disconnected previous entry. -/
theorem manager_connect_registry_witness :
    registry_lookup (manager_connect [] "srv" true).1 "srv" =
      some (manager_connect [] "srv" true).2 ∧
    registry_lookup
      (manager_connect [("srv", ⟨"srv", ConnectionState.connected⟩)] "srv"
        false).1 "srv" =
      some ⟨"srv", ConnectionState.disconnected⟩ := by
  constructor
  · exact (manager_connect_registry [] "srv" true).2.1 rfl
  · rw [(manager_connect_registry
      [("srv", ⟨"srv", ConnectionState.connected⟩)] "srv" false).2.2 rfl]
    decide

/-! ### Permission denial (claim C2) -/

/-- After `respond_permission(pid, ...)` returns, no pending entry with
that id remains (it was either popped or never present), so the denial
branch's scan for the denied entry always misses. -/
theorem respond_pending_no_pid (st : SvcState) (pid : String)
    (approved always : Bool) :
    ((respond_permission st pid approved always).2.pending).find?
      (fun p => decide (p.id = pid)) = none := by
  unfold respond_permission
  cases hl : lookup_permission st.pending pid with
  | none =>
    simpa [lookup_permission] using hl
  | some perm =>
    have key : (st.pending.filter (fun p => decide (p.id ≠ pid))).find?
        (fun p => decide (p.id = pid)) = none := by
      rw [List.find?_eq_none]
      intro x hx
      have hmem := (List.mem_filter.mp hx).2
      simp at hmem ⊢
      exact hmem
    cases approved <;> cases always <;> simp [key]

/-- C2: the denial path of `continue_after_permission` emits only the
`permission_denied` status: because `respond_permission` already popped
the pending entry, the subsequent scan for the denied entry finds
nothing, so no error tool-result is recorded in the conversation and no
tool-result event is emitted — for every service state, conversation and
permission id. -/
theorem continue_after_permission_denial (exec : ExecFun)
    (script : List (List StreamEv)) (conv : Conv) (st : SvcState)
    (pid : String) (always : Bool) :
    continue_after_permission exec script conv st pid false always =
      ⟨[OutEvent.status "permission_denied" none], conv,
       (respond_permission st pid false always).2, 0⟩ := by
  unfold continue_after_permission
  simp [get_pending_permissions, respond_pending_no_pid]

/-! ### Path sandbox (claim C8) -/

/-- `normalize_parts` is the fold of `norm_step`. -/
theorem normalize_parts_eq_fold (l : List String) :
    normalize_parts l = l.foldl norm_step [] := rfl

/-- A resolved path contains no `.` or `..` components. -/
theorem normalize_parts_no_dots (l : List String) :
    ∀ c ∈ normalize_parts l, c ≠ "." ∧ c ≠ ".." := by
  suffices haux : ∀ (l acc : List String), (∀ c ∈ acc, c ≠ "." ∧ c ≠ "..") →
      ∀ c ∈ l.foldl norm_step acc, c ≠ "." ∧ c ≠ ".." by
    intro c hc
    exact haux l [] (by simp) c (by simpa [normalize_parts_eq_fold] using hc)
  intro l
  induction l with
  | nil => intro acc hacc c hc; exact hacc c hc
  | cons x rest ih =>
    intro acc hacc c hc
    simp only [List.foldl_cons] at hc
    by_cases hx : x = "."
    · rw [show norm_step acc x = acc by simp [norm_step, hx]] at hc
      exact ih acc hacc c hc
    · by_cases hx2 : x = ".."
      · rw [show norm_step acc x = acc.dropLast by simp [norm_step, hx, hx2]] at hc
        exact ih acc.dropLast
          (fun d hd => hacc d (List.dropLast_subset _ hd)) c hc
      · rw [show norm_step acc x = acc ++ [x] by simp [norm_step, hx, hx2]] at hc
        refine ih (acc ++ [x]) ?_ c hc
        intro d hd
        rcases List.mem_append.mp hd with h1 | h2
        · exact hacc d h1
        · simp only [List.mem_singleton] at h2
          subst h2
          exact ⟨hx, hx2⟩

/-- Resolution is the identity on paths without `.` or `..` components. -/
theorem normalize_parts_eq_self (l : List String)
    (h : ∀ c ∈ l, c ≠ "." ∧ c ≠ "..") : normalize_parts l = l := by
  suffices haux : ∀ (l acc : List String), (∀ c ∈ l, c ≠ "." ∧ c ≠ "..") →
      l.foldl norm_step acc = acc ++ l by
    simpa [normalize_parts_eq_fold] using haux l [] h
  intro l
  induction l with
  | nil => intro acc _; simp
  | cons x rest ih =>
    intro acc hl
    have hx := hl x (by simp)
    simp only [List.foldl_cons]
    rw [show norm_step acc x = acc ++ [x] by simp [norm_step, hx.1, hx.2]]
    rw [ih (acc ++ [x]) (fun c hc => hl c (by simp [hc]))]
    simp

/-- Resolving twice is resolving once. -/
theorem normalize_parts_idem (l : List String) :
    normalize_parts (normalize_parts l) = normalize_parts l :=
  normalize_parts_eq_self _ (normalize_parts_no_dots l)

/-- C8: `resolve_path` succeeds, returning the resolved absolute path,
exactly when that resolved path has the resolved workspace root or a
resolved allow-listed root as a component-list prefix (absolute-path
containment after resolution); any other path is rejected with the
boundary error — in particular a relative path escaping through `..`,
and a sibling directory whose rendered absolute path merely has the
workspace's rendered path as a string prefix. -/
theorem resolve_path_sandbox :
    (∀ (ctx : ToolCtx) (p : PathArg) (res : List String),
      resolve_path ctx p = Except.ok res ↔
        (res = normalize_parts (expand_path ctx p) ∧
         ((normalize_parts ctx.workspace_path).isPrefixOf res ||
          ctx.allowed_paths.any
            (fun a => (normalize_parts a).isPrefixOf res)) = true)) ∧
    (∀ (ctx : ToolCtx) (p : PathArg),
      ((normalize_parts ctx.workspace_path).isPrefixOf
          (normalize_parts (expand_path ctx p)) ||
       ctx.allowed_paths.any
         (fun a => (normalize_parts a).isPrefixOf
            (normalize_parts (expand_path ctx p)))) = false →
      resolve_path ctx p = Except.error "outside allowed boundaries") ∧
    (resolve_path ⟨["ws"], []⟩ ⟨false, ["..", "etc", "passwd"]⟩ =
      Except.error "outside allowed boundaries") ∧
    ((render_path ["ws"]).toList.isPrefixOf (render_path ["wsevil", "f"]).toList
       = true ∧
     resolve_path ⟨["ws"], []⟩ ⟨true, ["wsevil", "f"]⟩ =
      Except.error "outside allowed boundaries") := by
  have hallowed : ∀ (ctx : ToolCtx) (p : PathArg),
      is_path_allowed ctx (normalize_parts (expand_path ctx p)) =
        ((normalize_parts ctx.workspace_path).isPrefixOf
            (normalize_parts (expand_path ctx p)) ||
         ctx.allowed_paths.any
           (fun a => (normalize_parts a).isPrefixOf
              (normalize_parts (expand_path ctx p)))) := by
    intro ctx p
    unfold is_path_allowed
    rw [normalize_parts_idem]
  refine ⟨?_, ?_, by rfl, by decide, by rfl⟩
  · intro ctx p res
    unfold resolve_path
    rw [show (let path := expand_path ctx p; let resolved := normalize_parts path;
          if is_path_allowed ctx resolved then Except.ok resolved
          else Except.error "outside allowed boundaries") =
        (if is_path_allowed ctx (normalize_parts (expand_path ctx p)) then
          Except.ok (normalize_parts (expand_path ctx p))
         else Except.error "outside allowed boundaries") from rfl]
    by_cases hall : is_path_allowed ctx (normalize_parts (expand_path ctx p)) = true
    · rw [if_pos hall]
      constructor
      · intro h
        injection h with h'
        subst h'
        exact ⟨rfl, by rw [← hallowed ctx p]; exact hall⟩
      · intro ⟨hres, _⟩
        subst hres
        rfl
    · rw [if_neg hall]
      constructor
      · intro h
        cases h
      · intro ⟨hres, hcond⟩
        subst hres
        rw [← hallowed ctx p] at hcond
        exact absurd hcond hall
  · intro ctx p h
    unfold resolve_path
    have : is_path_allowed ctx (normalize_parts (expand_path ctx p)) = false := by
      rw [hallowed ctx p]; exact h
    simp only [this]
    rfl

/-- Witness for C8: a relative path inside the workspace resolves, and a
path outside every allowed root is rejected. -/
theorem resolve_path_sandbox_witness :
    resolve_path ⟨["ws"], []⟩ ⟨false, ["a", "b"]⟩ = Except.ok ["ws", "a", "b"] ∧
    resolve_path ⟨["ws"], []⟩ ⟨true, ["x"]⟩ =
      Except.error "outside allowed boundaries" :=
  ⟨(resolve_path_sandbox.1 ⟨["ws"], []⟩ ⟨false, ["a", "b"]⟩
      ["ws", "a", "b"]).mpr (by decide),
   resolve_path_sandbox.2.1 ⟨["ws"], []⟩ ⟨true, ["x"]⟩ (by decide)⟩

/-! ### MCP request ids (claim C6) -/

/-- The fresh connection satisfies the invariant. -/
theorem req_inv_init : ReqInv conn_req_init := by
  refine ⟨rfl, List.nodup_nil, ?_⟩
  intro i hi
  cases hi

/-- Every step of the correlation machinery preserves the invariant. -/
theorem req_inv_step (s : ConnReqState) (e : ReqEvent) (h : ReqInv s) :
    ReqInv (req_step s e) := by
  obtain ⟨hiss, hnd, hmem⟩ := h
  cases e with
  | send =>
    refine ⟨?_, ?_, ?_⟩
    · simp [req_step, hiss, List.range_succ]
    · rw [show (req_step s ReqEvent.send).pending =
          s.pending ++ [s.request_id + 1] from rfl]
      rw [List.nodup_append]
      refine ⟨hnd, List.nodup_singleton _, ?_⟩
      intro a ha hb
      simp only [List.mem_singleton] at hb
      subst hb
      have := hmem _ ha
      omega
    · intro i hi
      rw [show (req_step s ReqEvent.send).pending =
          s.pending ++ [s.request_id + 1] from rfl] at hi
      rcases List.mem_append.mp hi with h1 | h2
      · have := hmem i h1
        refine ⟨this.1, by simp [req_step]; omega, ?_⟩
        rw [show (req_step s ReqEvent.send).issued =
            s.issued ++ [s.request_id + 1] from rfl]
        exact List.mem_append_left _ this.2.2
      · simp only [List.mem_singleton] at h2
        subst h2
        refine ⟨by omega, by simp [req_step], ?_⟩
        rw [show (req_step s ReqEvent.send).issued =
            s.issued ++ [s.request_id + 1] from rfl]
        exact List.mem_append_right _ (by simp)
  | response j =>
    refine ⟨hiss, hnd.erase _, ?_⟩
    intro i hi
    exact hmem i (List.mem_of_mem_erase hi)
  | timeout j =>
    refine ⟨hiss, hnd.erase _, ?_⟩
    intro i hi
    exact hmem i (List.mem_of_mem_erase hi)

/-- The invariant holds along every trace. -/
theorem req_inv_run_from (evs : List ReqEvent) :
    ∀ s, ReqInv s → ReqInv (req_run_from s evs) := by
  induction evs with
  | nil => intro s h; exact h
  | cons e rest ih =>
    intro s h
    exact ih (req_step s e) (req_inv_step s e h)

/-- An id that is absent from the pending set and not beyond the counter
can never re-enter the pending set (later sends use strictly larger ids),
and the counter never decreases. -/
theorem req_absent_stays (evs : List ReqEvent) :
    ∀ s i, i ∉ s.pending → i ≤ s.request_id →
      i ∉ (req_run_from s evs).pending ∧
      i ≤ (req_run_from s evs).request_id := by
  induction evs with
  | nil => intro s i hi hle; exact ⟨hi, hle⟩
  | cons e rest ih =>
    intro s i hi hle
    have hstep : i ∉ (req_step s e).pending ∧ i ≤ (req_step s e).request_id := by
      cases e with
      | send =>
        constructor
        · intro hmem
          rw [show (req_step s ReqEvent.send).pending =
              s.pending ++ [s.request_id + 1] from rfl] at hmem
          rcases List.mem_append.mp hmem with h1 | h2
          · exact hi h1
          · simp only [List.mem_singleton] at h2
            omega
        · simp [req_step]
          omega
      | response j =>
        exact ⟨fun hmem => hi (List.erase_subset _ _ hmem), hle⟩
      | timeout j =>
        exact ⟨fun hmem => hi (List.erase_subset _ _ hmem), hle⟩
    exact ih (req_step s e) i hstep.1 hstep.2

/-- C6: along every event trace of one connection, the issued request ids
are exactly `1, 2, …, request_id` in order (fresh, unique, monotonically
increasing from 1); the pending ids are distinct issued ids bounded by
the counter; handling a response for an id, or its timeout, removes it
from the pending set; and an id that has left the pending set (and is not
in the as-yet-unissued range) is never pending again — so each pending
entry is removed exactly once, by a response or by the timeout cleanup. -/
theorem mcp_request_id_invariants (evs : List ReqEvent) :
    (req_run evs).issued =
      (List.range (req_run evs).request_id).map (· + 1) ∧
    (req_run evs).pending.Nodup ∧
    (∀ i ∈ (req_run evs).pending,
      1 ≤ i ∧ i ≤ (req_run evs).request_id ∧ i ∈ (req_run evs).issued) ∧
    (∀ i, i ∉ (req_step (req_run evs) (ReqEvent.response i)).pending ∧
          i ∉ (req_step (req_run evs) (ReqEvent.timeout i)).pending) ∧
    (∀ more i, i ∉ (req_run evs).pending → i ≤ (req_run evs).request_id →
      i ∉ (req_run_from (req_run evs) more).pending) := by
  have hinv : ReqInv (req_run evs) :=
    req_inv_run_from evs conn_req_init req_inv_init
  obtain ⟨hiss, hnd, hmem⟩ := hinv
  refine ⟨hiss, hnd, hmem, ?_, ?_⟩
  · intro i
    constructor
    · intro hmem'
      rw [show (req_step (req_run evs) (ReqEvent.response i)).pending =
          (req_run evs).pending.erase i from rfl] at hmem'
      exact absurd rfl (hnd.mem_erase_iff.mp hmem').1
    · intro hmem'
      rw [show (req_step (req_run evs) (ReqEvent.timeout i)).pending =
          (req_run evs).pending.erase i from rfl] at hmem'
      exact absurd rfl (hnd.mem_erase_iff.mp hmem').1
  · intro more i hi hle
    exact (req_absent_stays more (req_run evs) i hi hle).1

/-- Witness for C6: two requests are issued as ids 1 and 2; id 1, once
answered, is not pending after any further activity. -/
theorem mcp_request_id_invariants_witness :
    1 ∉ (req_run_from (req_run [ReqEvent.send, ReqEvent.send, ReqEvent.response 1])
          [ReqEvent.send, ReqEvent.timeout 2]).pending :=
  (mcp_request_id_invariants [ReqEvent.send, ReqEvent.send, ReqEvent.response 1]).2.2.2.2
    [ReqEvent.send, ReqEvent.timeout 2] 1 (by decide) (by decide)

/-! ### Anthropic tool-argument reconstruction (claim C5) -/

/-- Folding a string list with append from any accumulator. -/
theorem string_foldl_append (l : List String) :
    ∀ a : String, l.foldl (· ++ ·) a = a ++ String.join l := by
  induction l with
  | nil =>
    intro a
    simp [String.join, String.append_empty]
  | cons s rest ih =>
    intro a
    show rest.foldl (· ++ ·) (a ++ s) = a ++ String.join (s :: rest)
    rw [ih (a ++ s)]
    rw [show String.join (s :: rest) = rest.foldl (· ++ ·) ("" ++ s) from rfl]
    rw [ih ("" ++ s), String.empty_append, String.append_assoc]

/-- `String.join` unfolds on a cons cell. -/
theorem string_join_cons (s : String) (l : List String) :
    String.join (s :: l) = s ++ String.join l := by
  rw [show String.join (s :: l) = l.foldl (· ++ ·) ("" ++ s) from rfl]
  rw [string_foldl_append, String.empty_append]

/-- Running the translation over a concatenation composes. -/
theorem anth_run_append (parse : String → Option Json) (st : AnthState)
    (l1 l2 : List AnthEvent) :
    anth_run parse st (l1 ++ l2) =
      ((anth_run parse (anth_run parse st l1).1 l2).1,
       (anth_run parse st l1).2 ++ (anth_run parse (anth_run parse st l1).1 l2).2) := by
  induction l1 generalizing st with
  | nil => simp [anth_run]
  | cons e rest ih =>
    simp [anth_run, ih, List.append_assoc]

/-- While a tool block is open, each `input_json_delta` appends its
fragment to the buffer and emits one `TOOL_USE_DELTA`; the block ids do
not change. -/
theorem anth_run_deltas (parse : String → Option Json) (bid bname : String)
    (deltas : List String) :
    ∀ buf : String,
      anth_run parse ⟨some bid, some bname, buf⟩
        (deltas.map AnthEvent.content_block_delta_json) =
        (⟨some bid, some bname, buf ++ String.join deltas⟩,
         deltas.map (fun s => StreamEv.tool_use_delta (some bid) s)) := by
  induction deltas with
  | nil =>
    intro buf
    simp [anth_run, String.join, String.append_empty]
  | cons d rest ih =>
    intro buf
    simp only [List.map_cons, anth_run, anth_step]
    rw [ih (buf ++ d), string_join_cons, String.append_assoc]
    simp

/-- C5: for a streamed tool-use block with truthy id and name, the
`TOOL_USE_END` emitted at `content_block_stop` carries as arguments the
parse of the concatenated `input_json_delta` fragments; when the
fragments are empty or do not parse, the arguments fall back to the empty
object and no failure escapes.  `parse` stands for `json.loads`, which
rejects the empty string. -/
theorem anth_tool_argument_roundtrip (parse : String → Option Json)
    (bid bname : String) (deltas : List String) (st : AnthState)
    (hid : bid ≠ "") (hname : bname ≠ "") :
    ((String.join deltas = "" ∨ parse (String.join deltas) = none) →
      (anth_run parse st
        (AnthEvent.content_block_start_tool bid bname ::
          (deltas.map AnthEvent.content_block_delta_json ++
            [AnthEvent.content_block_stop]))).2 =
        StreamEv.tool_use_start bid bname ::
          (deltas.map (fun s => StreamEv.tool_use_delta (some bid) s) ++
            [StreamEv.tool_use_end (some ⟨bid, bname, Json.emptyObj⟩)])) ∧
    (∀ v : Json, String.join deltas ≠ "" → parse (String.join deltas) = some v →
      (anth_run parse st
        (AnthEvent.content_block_start_tool bid bname ::
          (deltas.map AnthEvent.content_block_delta_json ++
            [AnthEvent.content_block_stop]))).2 =
        StreamEv.tool_use_start bid bname ::
          (deltas.map (fun s => StreamEv.tool_use_delta (some bid) s) ++
            [StreamEv.tool_use_end (some ⟨bid, bname, v⟩)])) := by
  have key : (anth_run parse st
      (AnthEvent.content_block_start_tool bid bname ::
        (deltas.map AnthEvent.content_block_delta_json ++
          [AnthEvent.content_block_stop]))).2 =
      StreamEv.tool_use_start bid bname ::
        (deltas.map (fun s => StreamEv.tool_use_delta (some bid) s) ++
          [StreamEv.tool_use_end (some ⟨bid, bname,
            if String.join deltas = "" then Json.emptyObj
            else
              match parse (String.join deltas) with
              | some v => v
              | none => Json.emptyObj⟩)]) := by
    rw [show (AnthEvent.content_block_start_tool bid bname ::
        (deltas.map AnthEvent.content_block_delta_json ++
          [AnthEvent.content_block_stop])) =
      [AnthEvent.content_block_start_tool bid bname] ++
        (deltas.map AnthEvent.content_block_delta_json ++
          [AnthEvent.content_block_stop]) from rfl]
    rw [anth_run_append]
    rw [show anth_run parse st [AnthEvent.content_block_start_tool bid bname] =
        (⟨some bid, some bname, ""⟩, [StreamEv.tool_use_start bid bname]) from by
      simp [anth_run, anth_step]]
    rw [anth_run_append]
    rw [anth_run_deltas parse bid bname deltas ""]
    rw [String.empty_append]
    have hcond : (truthy_str (some bid) && truthy_str (some bname)) = true := by
      simp [truthy_str, hid, hname]
    simp [anth_run, anth_step, hcond]
  constructor
  · intro h
    rw [key]
    rcases h with h | h
    · rw [if_pos h]
    · by_cases he : String.join deltas = ""
      · rw [if_pos he]
      · rw [if_neg he, h]
  · intro v hne hp
    rw [key, if_neg hne, hp]

/-- Witness for C5: two fragments `"a"`, `"b"` concatenate to `"ab"`,
which the sample parser reads as the one-field object; the emitted
`TOOL_USE_END` carries exactly that object. -/
theorem anth_tool_argument_roundtrip_witness :
    (anth_run parse_w anth_init
      (AnthEvent.content_block_start_tool "toolu_1" "read_file" ::
        (["a", "b"].map AnthEvent.content_block_delta_json ++
          [AnthEvent.content_block_stop]))).2 =
      StreamEv.tool_use_start "toolu_1" "read_file" ::
        (["a", "b"].map (fun s => StreamEv.tool_use_delta (some "toolu_1") s) ++
          [StreamEv.tool_use_end (some ⟨"toolu_1", "read_file",
            Json.obj (JsonObj.cons "k" (Json.str "v") JsonObj.nil)⟩)]) :=
  (anth_tool_argument_roundtrip parse_w "toolu_1" "read_file" ["a", "b"]
    anth_init (by decide) (by decide)).2
    (Json.obj (JsonObj.cons "k" (Json.str "v") JsonObj.nil))
    (by decide) (by decide)

/-! ### Pending tool-use detection (claim C7) -/

/-- A scan skips a block on which the predicate is everywhere false. -/
theorem find?_append_of_forall_false {α : Type} (p : α → Bool)
    (l₁ l₂ : List α) (h : ∀ x ∈ l₁, p x = false) :
    (l₁ ++ l₂).find? p = l₂.find? p := by
  induction l₁ with
  | nil => rfl
  | cons x rest ih =>
    have hx := h x (by simp)
    rw [List.cons_append, List.find?_cons_of_neg _ (by simp [hx])]
    exact ih (fun y hy => h y (by simp [hy]))

/-- `findIdx` lands on the first hit after an all-miss block. -/
theorem findIdx_append_cons {α : Type} (p : α → Bool) (l₁ : List α)
    (a : α) (l₂ : List α) (h1 : ∀ x ∈ l₁, p x = false) (ha : p a = true) :
    (l₁ ++ a :: l₂).findIdx p = l₁.length := by
  induction l₁ with
  | nil => simp [List.findIdx_cons, ha]
  | cons x rest ih =>
    have hx := h1 x (by simp)
    rw [List.cons_append, List.findIdx_cons]
    simp [hx, ih (fun y hy => h1 y (by simp [hy]))]

/-- The reverse scan of `get_last_assistant_message` finds the assistant
message when everything after it is non-assistant. -/
theorem get_last_assistant_of_shape (pre post' : List Msg) (la : Msg)
    (tin tout : Nat) (hrole : la.role = Role.assistant)
    (hpost' : ∀ m ∈ post', m.role ≠ Role.assistant) :
    Conv.get_last_assistant_message ⟨pre ++ la :: post', tin, tout⟩ = some la := by
  unfold Conv.get_last_assistant_message
  show (pre ++ la :: post').reverse.find? _ = _
  rw [List.reverse_append, List.reverse_cons, List.append_assoc]
  rw [find?_append_of_forall_false _ post'.reverse _ ?_]
  · rw [List.singleton_append, List.find?_cons_of_pos _ (by simp [hrole])]
  · intro x hx
    have := hpost' x (List.mem_reverse.mp hx)
    simp [this]

/-- C7: when the last assistant message of a conversation carries tool
uses and no later message carries tool results,
`get_pending_tool_uses()` returns exactly those tool uses; appending a
message holding tool results (as `add_tool_results` does) makes it return
the empty list.  (The freshness of message ids is reflected by requiring
the assistant message not to recur earlier in the list, since
`list.index` finds the first structurally equal element.) -/
theorem get_pending_tool_uses_spec (pre post : List Msg) (la : Msg)
    (tin tout : Nat)
    (hrole : la.role = Role.assistant)
    (htu : la.tool_uses ≠ [])
    (hpost_role : ∀ m ∈ post, m.role ≠ Role.assistant)
    (hpost_tr : ∀ m ∈ post, m.tool_results = [])
    (hnotin : la ∉ pre) :
    Conv.get_pending_tool_uses ⟨pre ++ la :: post, tin, tout⟩ = la.tool_uses ∧
    (∀ rs : List LLMToolResult, rs ≠ [] →
      Conv.get_pending_tool_uses
        ⟨pre ++ la :: (post ++ [⟨Role.user, "", [], rs, none⟩]), tin, tout⟩ = []) := by
  have hne : la.tool_uses.isEmpty = false := by
    cases h : la.tool_uses with
    | nil => exact absurd h htu
    | cons x xs => rfl
  have hpre : ∀ x ∈ pre, decide (x = la) = false := by
    intro x hx
    by_cases he : x = la
    · subst he; exact absurd hx hnotin
    · simp [he]
  have hidx : ∀ post' : List Msg, py_index (pre ++ la :: post') la = pre.length := by
    intro post'
    exact findIdx_append_cons _ pre la post' hpre (by simp)
  have hdrop : ∀ post' : List Msg,
      (pre ++ la :: post').drop (pre.length + 1) = post' := by
    intro post'
    rw [show pre ++ la :: post' = (pre ++ [la]) ++ post' by simp]
    rw [show pre.length + 1 = (pre ++ [la]).length by simp]
    exact List.drop_left _ _
  constructor
  · unfold Conv.get_pending_tool_uses
    rw [get_last_assistant_of_shape pre post la tin tout hrole hpost_role]
    simp only [hne, Bool.false_eq_true, if_false]
    rw [show py_index (⟨pre ++ la :: post, tin, tout⟩ : Conv).messages la =
        pre.length from hidx post]
    rw [show (⟨pre ++ la :: post, tin, tout⟩ : Conv).messages.drop (pre.length + 1) =
        post from hdrop post]
    have hany : post.any (fun m => !m.tool_results.isEmpty) = false := by
      rw [List.any_eq_false]
      intro m hm
      simp [hpost_tr m hm]
    simp [hany]
  · intro rs hrs
    have hpost_role' : ∀ m ∈ post ++ [(⟨Role.user, "", [], rs, none⟩ : Msg)],
        m.role ≠ Role.assistant := by
      intro m hm
      rcases List.mem_append.mp hm with h1 | h2
      · exact hpost_role m h1
      · simp only [List.mem_singleton] at h2
        subst h2
        simp
    unfold Conv.get_pending_tool_uses
    rw [get_last_assistant_of_shape pre _ la tin tout hrole hpost_role']
    simp only [hne, Bool.false_eq_true, if_false]
    rw [show py_index (⟨pre ++ la :: (post ++ [⟨Role.user, "", [], rs, none⟩]),
        tin, tout⟩ : Conv).messages la = pre.length from hidx _]
    rw [show (⟨pre ++ la :: (post ++ [⟨Role.user, "", [], rs, none⟩]),
        tin, tout⟩ : Conv).messages.drop (pre.length + 1) =
        post ++ [⟨Role.user, "", [], rs, none⟩] from hdrop _]
    have hany : (post ++ [(⟨Role.user, "", [], rs, none⟩ : Msg)]).any
        (fun m => !m.tool_results.isEmpty) = true := by
      rw [List.any_eq_true]
      refine ⟨⟨Role.user, "", [], rs, none⟩, List.mem_append_right _ (by simp), ?_⟩
      cases h : rs with
      | nil => exact absurd h hrs
      | cons x xs => simp [h]
    simp [hany]

/-- Witness for C7 on a one-message conversation with one tool use. -/
theorem get_pending_tool_uses_spec_witness :
    Conv.get_pending_tool_uses conv_pending_w = [tu_w] ∧
    Conv.get_pending_tool_uses
      ⟨[⟨Role.assistant, "", [tu_w], [], none⟩,
        ⟨Role.user, "", [], [⟨"t1", "ok", false⟩], none⟩], 0, 0⟩ = [] := by
  have h := get_pending_tool_uses_spec [] [] ⟨Role.assistant, "", [tu_w], [], none⟩
    0 0 rfl (by decide) (by intro m hm; cases hm) (by intro m hm; cases hm)
    (by intro h; cases h)
  exact ⟨h.1, h.2 [⟨"t1", "ok", false⟩] (by decide)⟩

/-! ### Streaming orchestrator suspension (claim C1) -/

/-- A provider round emits only chunk, tool-call and error events — never
a completion event. -/
theorem run_stream_round_no_complete (i o : Nat) :
    ∀ (evs : List StreamEv) (conv : Conv) (acc : String) (tus : List ToolUse),
      OutEvent.complete i o ∉ (run_stream_round conv acc tus evs).1 := by
  intro evs
  induction evs with
  | nil => intro conv acc tus; simp [run_stream_round]
  | cons e rest ih =>
    intro conv acc tus
    cases e with
    | text_delta s =>
      by_cases hs : s = ""
      · simpa [run_stream_round, hs] using ih conv acc tus
      · simpa [run_stream_round, hs] using ih conv (acc ++ s) tus
    | tool_use_start a b =>
      simpa [run_stream_round] using ih conv acc tus
    | tool_use_delta a b =>
      simpa [run_stream_round] using ih conv acc tus
    | tool_use_end otu =>
      cases otu with
      | none => simpa [run_stream_round] using ih conv acc tus
      | some tu => simpa [run_stream_round] using ih conv acc (tus ++ [tu])
    | message_start =>
      simpa [run_stream_round] using ih conv acc tus
    | message_delta u =>
      simpa [run_stream_round] using ih conv acc tus
    | message_end usage =>
      cases usage with
      | none => simpa [run_stream_round] using ih conv acc tus
      | some p =>
        obtain ⟨pi, po⟩ := p
        simpa [run_stream_round] using ih (conv.update_token_usage pi po) acc tus
    | stream_error m =>
      simp [run_stream_round]

/-- A suspended iteration loop has emitted a `waiting_permission` status
and no completion event. -/
theorem process_loop_suspended_spec (exec : ExecFun) :
    ∀ (fuel : Nat) (script : List (List StreamEv)) (conv : Conv)
      (st : SvcState) (t : String),
      (process_loop exec fuel script conv st t).outcome = RunOutcome.suspended →
        (∃ n, OutEvent.status "waiting_permission" (some n) ∈
          (process_loop exec fuel script conv st t).events) ∧
        (∀ i o, OutEvent.complete i o ∉
          (process_loop exec fuel script conv st t).events) := by
  intro fuel
  induction fuel with
  | zero =>
    intro script conv st t h
    simp [process_loop] at h
  | succ n ih =>
    intro script conv st t
    simp only [process_loop]
    split
    · intro h
      simp at h
    · split
      · intro h
        simp at h
      · split
        · intro h
          have hrec := ih _ _ _ _ h
          constructor
          · obtain ⟨m, hm⟩ := hrec.1
            exact ⟨m, List.mem_append_right _ hm⟩
          · intro i o hmem
            rcases List.mem_append.mp hmem with hA | h5
            · rcases List.mem_append.mp hA with hB | htr
              · rcases List.mem_append.mp hB with hC | hex
                · rcases List.mem_cons.mp hC with he | hr
                  · cases he
                  · exact run_stream_round_no_complete i o (script.headD []) conv "" [] hr
                · simp at hex
              · rcases List.mem_map.mp htr with ⟨res, _, he3⟩
                cases he3
            · exact hrec.2 i o h5
        · intro _
          constructor
          · refine ⟨(get_pending_permissions
              (exec st (run_stream_round conv "" [] (script.headD [])).2.2.2.1).1).length,
              List.mem_append_right _ (by simp)⟩
          · intro i o hmem
            rcases List.mem_append.mp hmem with hB | hw
            · rcases List.mem_append.mp hB with hC | hex
              · rcases List.mem_cons.mp hC with he | hr
                · cases he
                · exact run_stream_round_no_complete i o (script.headD []) conv "" [] hr
              · simp at hex
            · simp at hw

/-- C1: whenever a `process_prompt` run suspends — that is, a provider
round produced tool uses and executing them left at least one pending
permission in the tool service — the emitted event sequence contains a
`waiting_permission` status (carrying the pending count) and contains no
`complete` event: the run returned without completing the turn. -/
theorem process_prompt_waiting_permission (exec : ExecFun)
    (script : List (List StreamEv)) (conv : Conv) (st : SvcState)
    (prompt : String)
    (h : (process_prompt exec script conv st prompt).outcome =
      RunOutcome.suspended) :
    (∃ n, OutEvent.status "waiting_permission" (some n) ∈
      (process_prompt exec script conv st prompt).events) ∧
    (∀ i o, OutEvent.complete i o ∉
      (process_prompt exec script conv st prompt).events) := by
  have hloop := process_loop_suspended_spec exec max_tool_iterations script
    (conv.add_user_message prompt) st "" h
  constructor
  · obtain ⟨n, hn⟩ := hloop.1
    exact ⟨n, by simp only [process_prompt, List.mem_cons]; right; exact hn⟩
  · intro i o
    simp only [process_prompt, List.mem_cons]
    push_neg
    exact ⟨by simp, hloop.2 i o⟩

/-- Witness for C1: a run whose single tool use is blocked behind a
permission suspends, emits the waiting status, and never completes. -/
theorem process_prompt_waiting_permission_witness :
    (process_prompt exec_blocked [round_tool] ⟨[], 0, 0⟩ svc_empty "hi").outcome =
      RunOutcome.suspended ∧
    (∃ n, OutEvent.status "waiting_permission" (some n) ∈
      (process_prompt exec_blocked [round_tool] ⟨[], 0, 0⟩ svc_empty "hi").events) ∧
    (∀ i o, OutEvent.complete i o ∉
      (process_prompt exec_blocked [round_tool] ⟨[], 0, 0⟩ svc_empty "hi").events) :=
  ⟨rfl,
   (process_prompt_waiting_permission exec_blocked [round_tool] ⟨[], 0, 0⟩
     svc_empty "hi" rfl).1,
   (process_prompt_waiting_permission exec_blocked [round_tool] ⟨[], 0, 0⟩
     svc_empty "hi" rfl).2⟩

/-! ### Tool iteration bound (claim C3) -/

/-- The `process_prompt` loop consumes at most `fuel` provider rounds. -/
theorem process_loop_rounds_le (exec : ExecFun) :
    ∀ (fuel : Nat) (script : List (List StreamEv)) (conv : Conv)
      (st : SvcState) (t : String),
      (process_loop exec fuel script conv st t).rounds ≤ fuel := by
  intro fuel
  induction fuel with
  | zero =>
    intro script conv st t
    simp [process_loop]
  | succ n ih =>
    intro script conv st t
    simp only [process_loop]
    split
    · simp
    · split
      · simp
      · split
        · refine le_trans (Nat.add_le_add_left (ih _ _ _ _) 1) ?_
          omega
        · simp

/-- `_continue_conversation` consumes one provider round per recursion:
with `n` consecutive tool-requesting rounds it performs `n + 1` provider
rounds, for every starting conversation and service state. -/
theorem continue_conversation_replicate (n : Nat) :
    ∀ (conv : Conv) (st : SvcState),
      (continue_conversation exec_noop (List.replicate n round_tool) conv st).rounds =
        n + 1 := by
  induction n with
  | zero => intro conv st; rfl
  | succ m ih =>
    intro conv st
    rw [List.replicate_succ]
    show (continue_conversation exec_noop (round_tool :: List.replicate m round_tool)
      conv st).rounds = m + 2
    simp only [continue_conversation]
    rw [show run_continuation_round "" [] round_tool = ([], "", [tu_w]) from rfl]
    simp only [List.isEmpty_cons, if_false]
    rw [show (exec_noop st [tu_w]) = (st, []) from rfl]
    simp [ih]
    omega

/-- C3 counterexample: a run resumed through
`continue_after_permission(…, approved=True)` whose provider keeps
requesting tools for 11 further rounds performs 12 provider rounds —
exceeding the fixed maximum of 10, because `_continue_conversation`
recurses with no iteration counter. -/
theorem tool_iteration_bound_counterexample :
    max_tool_iterations = 10 ∧
    (continue_after_permission exec_noop (List.replicate 11 round_tool)
      conv_pending_w svc_empty "p1" true false).rounds = 12 := by
  constructor
  · rfl
  · show (continue_after_permission exec_noop (List.replicate 11 round_tool)
      conv_pending_w svc_empty "p1" true false).rounds = 12
    rfl

/-- C3 amended: the iteration guard bounds only `process_prompt`'s own
loop — every run of `process_prompt` consumes at most
`max_tool_iterations` (10) provider rounds — while the continuation
entered after a permission approval recurses with no bound: for every
`n` there is a provider behaviour making it consume more than `n`
rounds. -/
theorem tool_iterations_amended :
    (∀ (exec : ExecFun) (script : List (List StreamEv)) (conv : Conv)
      (st : SvcState) (prompt : String),
      (process_prompt exec script conv st prompt).rounds ≤ max_tool_iterations) ∧
    (∀ n : Nat, ∃ script : List (List StreamEv),
      (continue_conversation exec_noop script conv_pending_w svc_empty).rounds > n) := by
  constructor
  · intro exec script conv st prompt
    exact process_loop_rounds_le exec max_tool_iterations script
      (conv.add_user_message prompt) st ""
  · intro n
    refine ⟨List.replicate n round_tool, ?_⟩
    rw [continue_conversation_replicate n conv_pending_w svc_empty]
    omega

end NW
